import Mathlib

/-!
Verification development for the MPQTT telemetry polling engine
(src/main.rs, src/settings.rs).

The engine is shallowly embedded as executable Lean functions.  Stateful
Rust code becomes explicit state passing: the state `St` carries a call
counter for the command executor, a counter for broker publish attempts,
a counter for monotonic-clock readings, and the trace of observable
events (device commands issued, telemetry publishes, sleeps).  External
collaborators (the inverter command executor, the MQTT broker, the
monotonic clock) are oracles in `Env`.
-/

namespace Mpqtt

/-- Settings loaded from config.yaml (src/settings.rs, struct Settings).
Only the fields the polling engine reads are modelled; `inverter_count`
is a `u8` and the delay/iteration fields are `u64` in the source, all
modelled as `Nat`. -/
structure Settings where
  debug : Bool
  outer_delay : Nat
  inner_delay : Nat
  error_delay : Nat
  inverter_count : Nat
  inner_iterations : Nat
  mode : String
deriving DecidableEq, Repr

/-- Command descriptors: the fixed catalogue of request types issued by
main.rs (QID, QPI, QVFW, QMOD, QPIWS, QPIRI, QPIRIReduced, QPIGS and the
indexed QPGS0..QPGS9 family, the index carried as a `Nat`). -/
inductive Cmd where
  | qid
  | qpi
  | qvfw
  | qmod
  | qpiws
  | qpiri
  | qpiriReduced
  | qpigs
  | qpgs (i : Nat)
deriving DecidableEq, Repr

/-- Telemetry channel suffixes used in `format!("{}/{}", topic, command)`. -/
inductive Chan where
  | qid
  | qpi
  | qvfw
  | qmod
  | qpiws
  | qpiri
  | qpigs
  | qpgs (i : Nat)
  | inner_stats
  | outer_stats
  | error
deriving DecidableEq, Repr

/-- Decimal digits of `n`, least significant first, with structural fuel
(`fuel > n` suffices).  Models the decimal rendering used by serde_json
for integer fields. -/
def toDigitsAux : Nat → Nat → List Nat
  | 0, _ => []
  | fuel + 1, n => if n < 10 then [n] else n % 10 :: toDigitsAux fuel (n / 10)

/-- Decimal digits of `n`, least significant first. -/
def toDigitsRev (n : Nat) : List Nat := toDigitsAux (n + 1) n

/-- Character for a decimal digit value. -/
def digitChar (d : Nat) : Char := Char.ofNat (48 + d)

/-- Decimal character rendering of `n`, most significant first. -/
def decChars (n : Nat) : List Char := ((toDigitsRev n).reverse).map digitChar

/-- Opaque serialization of a decoded command result (the engine treats
`serde_json::to_string(&result)` as a deterministic payload). -/
def serVal (v : Nat) : String := String.mk (decChars v)

/-- Cycle statistics (src/main.rs, struct Stats): elapsed wall-clock
duration of one pass in milliseconds; `update_duration` is a `u128`,
modelled as `Nat`. -/
structure Stats where
  update_duration : Nat
deriving DecidableEq, Repr

/-- Opening characters of the serde_json rendering of `Stats`:
`\x7b"update_duration":`. -/
def statsKeyChars : List Char := Char.ofNat 123 :: ("\"update_duration\":").data

/-- Closing brace character of the JSON object. -/
def rbraceC : Char := Char.ofNat 125

/-- Serialization of `Stats` as produced by `serde_json::to_string`. -/
def serStats (s : Stats) : String :=
  String.mk (statsKeyChars ++ decChars s.update_duration ++ [rbraceC])

/-- Strips an expected character sequence from the front of the input,
returning the remainder. -/
def stripPref : List Char → List Char → Option (List Char)
  | [], rest => some rest
  | _ :: _, [] => none
  | p :: ps, c :: cs => if c = p then stripPref ps cs else none

/-- Parses the decimal duration digits followed by the closing brace. -/
def parseDur : List Char → Nat → Option Nat
  | [], _ => none
  | c :: cs, acc =>
    if c = rbraceC then (if cs = [] then some acc else none)
    else if 48 ≤ c.toNat ∧ c.toNat ≤ 57 then parseDur cs (10 * acc + (c.toNat - 48))
    else none

/-- Decoder for the `Stats` telemetry payload: the inverse reading of
the serde_json rendering. -/
def deStats (str : String) : Option Stats :=
  match stripPref statsKeyChars str.data with
  | none => none
  | some rest =>
    match parseDur rest 0 with
    | none => none
    | some d => some ⟨d⟩

/-- Observable events of the engine: a device command issued through the
command executor, a telemetry publish (channel suffix, payload, and
whether any of the bounded broker attempts succeeded), and a blocking
sleep of a whole number of seconds. -/
inductive Event where
  | exec (c : Cmd)
  | publish (ch : Chan) (payload : String) (delivered : Bool)
  | sleepSec (n : Nat)
deriving DecidableEq, Repr

/-- Engine state threaded through a pass: the command-executor call
counter, the broker publish-attempt counter, the monotonic-clock reading
counter, and the event trace. -/
structure St where
  execCount : Nat
  pubCount : Nat
  timeCount : Nat
  trace : List Event
deriving DecidableEq, Repr

/-- Initial state of a pass. -/
def st0 : St := ⟨0, 0, 0, []⟩

/-- Oracles for the external collaborators: the command executor (k-th
device call returns a decoded value or an error message), the broker
(k-th publish attempt succeeds or fails), and the monotonic clock (k-th
elapsed-time reading in milliseconds). -/
structure Env where
  exec : Nat → Except String Nat
  pub : Nat → Bool
  time : Nat → Nat

/-- Outcome of a fallible engine phase: success, a propagated error
(Rust `?` on a `Result`), or a process panic (`unimplemented!()`). -/
inductive Res (α : Type) where
  | ok (a : α)
  | err (m : String)
  | panic
deriving DecidableEq, Repr

/-- Issues one device command: the command executor is strictly
sequential, so the call consumes the next oracle slot; the command is
recorded in the trace whether it succeeds or fails. -/
def doExec (env : Env) (c : Cmd) (st : St) : Except String Nat × St :=
  (env.exec st.execCount,
   { st with execCount := st.execCount + 1, trace := st.trace ++ [Event.exec c] })

/-- Bounded broker retry loop: up to `k` attempts starting at oracle
slot `start`, stopping at the first success; returns the number of
attempts made and whether one succeeded.  Models the
`for _ in 0..5 { match mqtt_client.publish(&msg).await { Ok(()) => break, Err(e) => log } }`
pattern shared by publish_update, publish_error and clear_error. -/
def attemptLoop (a : Nat → Bool) (start : Nat) : Nat → Nat × Bool
  | 0 => (0, false)
  | k + 1 =>
    if a start then (1, true)
    else
      let r := attemptLoop a (start + 1) k
      (r.1 + 1, r.2)

/-- The fixed five-attempt broker delivery loop. -/
def publishWithRetry (a : Nat → Bool) (start : Nat) : Nat × Bool :=
  attemptLoop a start 5

/-- Performs one engine-level publish: runs the bounded broker retry
loop, advances the attempt counter, and records the publish event with
its delivery outcome.  Broker failure is never surfaced to the caller. -/
def doPublish (env : Env) (ch : Chan) (payload : String) (st : St) : St :=
  let r := publishWithRetry env.pub st.pubCount
  { st with pubCount := st.pubCount + r.1,
            trace := st.trace ++ [Event.publish ch payload r.2] }

/-- Reads the monotonic clock (one `Instant::elapsed` call). -/
def doTime (env : Env) (st : St) : Nat × St :=
  (env.time st.timeCount, { st with timeCount := st.timeCount + 1 })

/-- Records a blocking sleep of `n` seconds. -/
def doSleep (n : Nat) (st : St) : St :=
  { st with trace := st.trace ++ [Event.sleepSec n] }

/-- Telemetry publish with bounded retry (src/main.rs publish_update):
always returns `Ok(())` to the caller. -/
def publish_update (env : Env) (ch : Chan) (payload : String) (st : St) :
    Except String Unit × St :=
  (Except.ok (), doPublish env ch payload st)

/-- Error-channel publish with bounded retry (src/main.rs publish_error):
always returns `Ok(())` to the caller. -/
def publish_error (env : Env) (m : String) (st : St) : Except String Unit × St :=
  (Except.ok (), doPublish env Chan.error m st)

/-- Error-channel clear: publishes an empty payload with bounded retry
(src/main.rs clear_error); always returns `Ok(())` to the caller. -/
def clear_error (env : Env) (st : St) : Except String Unit × St :=
  (Except.ok (), doPublish env Chan.error "" st)

/-- First per-unit index polled: 0 when debug is enabled, 1 otherwise
(`let start_index = if settings.debug { 0 } else { 1 }`). -/
def startIndex (s : Settings) : Nat := if s.debug then 0 else 1

/-- The per-unit indices visited by `for index in start_index..=settings.inverter_count`. -/
def idxList (s : Settings) : List Nat :=
  List.range' (startIndex s) (s.inverter_count + 1 - startIndex s)

/-- The publish guard `(settings.debug && index == 0) || index != 0`. -/
def qpgsPubCond (s : Settings) (i : Nat) : Bool :=
  (s.debug && i == 0) || !(i == 0)

/-- The per-unit QPGS polling loop of the alternate ("phocos") mode:
for each index, dispatch to the matching QPGSn command (indices above 9
hit the `unimplemented!()` arm and panic before any command is issued),
execute it, and publish the result when the guard allows. -/
def qpgsLoop (env : Env) (s : Settings) : List Nat → St → Res Unit × St
  | [], st => (Res.ok (), st)
  | i :: rest, st =>
    if i ≤ 9 then
      match doExec env (Cmd.qpgs i) st with
      | (Except.error m, st1) => (Res.err m, st1)
      | (Except.ok v, st1) =>
        let st2 :=
          if qpgsPubCond s i then (publish_update env (Chan.qpgs i) (serVal v) st1).2
          else st1
        qpgsLoop env s rest st2
    else (Res.panic, st)

/-- One inner pass of `update`: the mode-selected status queries (the
indexed QPGS loop in "phocos" mode, the single aggregate QPIGS query
otherwise), then the inner heartbeat stat and the inner sleep. -/
def innerPass (env : Env) (s : Settings) (st : St) : Res Unit × St :=
  match (if s.mode == "phocos" then qpgsLoop env s (idxList s) st else (Res.ok (), st)) with
  | (Res.err m, st1) => (Res.err m, st1)
  | (Res.panic, st1) => (Res.panic, st1)
  | (Res.ok _, st1) =>
    match
      (if !(s.mode == "phocos") then
        match doExec env Cmd.qpigs st1 with
        | (Except.error m, st2) => (Res.err m, st2)
        | (Except.ok v, st2) =>
          (Res.ok (), (publish_update env Chan.qpigs (serVal v) st2).2)
      else (Res.ok (), st1)) with
    | (Res.err m, st2) => (Res.err m, st2)
    | (Res.panic, st2) => (Res.panic, st2)
    | (Res.ok _, st2) =>
      let t := (doTime env st2).1
      let st3 := (doTime env st2).2
      let st4 := (publish_update env Chan.inner_stats (serStats ⟨t⟩) st3).2
      (Res.ok (), doSleep s.inner_delay st4)

/-- The `for _ in 0..settings.inner_iterations` loop of `update`:
repeats the inner pass, propagating the first failure. -/
def innerLoop (env : Env) (s : Settings) : Nat → St → Res Unit × St
  | 0, st => (Res.ok (), st)
  | k + 1, st =>
    match innerPass env s st with
    | (Res.ok _, st1) => innerLoop env s k st1
    | r => r

/-- The outer tier of `update`: QMOD, QPIWS, the mode-selected rating
query (full QPIRI in default mode, QPIRIReduced in "phocos" mode, both
published under the qpiri suffix), the outer heartbeat stat, and the
outer sleep. -/
def outerFinalize (env : Env) (s : Settings) (st : St) : Res Unit × St :=
  match doExec env Cmd.qmod st with
  | (Except.error m, st1) => (Res.err m, st1)
  | (Except.ok v1, st1) =>
    let st2 := (publish_update env Chan.qmod (serVal v1) st1).2
    match doExec env Cmd.qpiws st2 with
    | (Except.error m, st3) => (Res.err m, st3)
    | (Except.ok v2, st3) =>
      let st4 := (publish_update env Chan.qpiws (serVal v2) st3).2
      match
        (if !(s.mode == "phocos") then doExec env Cmd.qpiri st4
         else doExec env Cmd.qpiriReduced st4) with
      | (Except.error m, st5) => (Res.err m, st5)
      | (Except.ok v3, st5) =>
        let st6 := (publish_update env Chan.qpiri (serVal v3) st5).2
        let t := (doTime env st6).1
        let st7 := (doTime env st6).2
        let st8 := (publish_update env Chan.outer_stats (serStats ⟨t⟩) st7).2
        (Res.ok (), doSleep s.outer_delay st8)

/-- One full outer pass (src/main.rs update): the inner loop followed by
the outer tier, starting from a fresh state. -/
def update (env : Env) (s : Settings) : Res Unit × St :=
  match innerLoop env s s.inner_iterations st0 with
  | (Res.ok _, st1) => outerFinalize env s st1
  | r => r

/-- Fate of the process after one step of the main loop, or after init:
`next` continues, `died` means the process panicked (`todo!()` /
`unimplemented!()` terminate the process with a panic). -/
inductive StepOut where
  | next
  | died
deriving DecidableEq, Repr

/-- One iteration of the main update loop (src/main.rs lines 114-130):
on update success the error channel is cleared; on update error the
error text is published to the error channel and the loop sleeps
`error_delay` seconds before the next fresh pass; an update panic kills
the process. -/
def mainStep (env : Env) (s : Settings) : StepOut × St :=
  match update env s with
  | (Res.ok _, st) => (StepOut.next, (clear_error env st).2)
  | (Res.err m, st) => (StepOut.next, doSleep s.error_delay (publish_error env m st).2)
  | (Res.panic, st) => (StepOut.died, st)

/-- The initialization sequence (src/main.rs init): QID failure is
logged and skipped, QPI and QVFW failures propagate via `?`. -/
def init (env : Env) (st : St) : Res Unit × St :=
  let stq :=
    match doExec env Cmd.qid st with
    | (Except.ok v, st1) => (publish_update env Chan.qid (serVal v) st1).2
    | (Except.error _, st1) => st1
  match doExec env Cmd.qpi stq with
  | (Except.error m, st2) => (Res.err m, st2)
  | (Except.ok v1, st2) =>
    let st3 := (publish_update env Chan.qpi (serVal v1) st2).2
    match doExec env Cmd.qvfw st3 with
    | (Except.error m, st4) => (Res.err m, st4)
    | (Except.ok v2, st4) => (Res.ok (), (publish_update env Chan.qvfw (serVal v2) st4).2)

/-- The caller-side handling of init (src/main.rs lines 105-111): on
init error the error text is published and then `todo!()` panics, so
the process dies without entering the main polling loop. -/
def initAndHandle (env : Env) : StepOut × St :=
  match init env st0 with
  | (Res.ok _, st) => (StepOut.next, st)
  | (Res.err m, st) => (StepOut.died, (publish_error env m st).2)
  | (Res.panic, st) => (StepOut.died, st)

/-- Bootstrap collaborators, in program order (src/main.rs lines 39-99):
configuration load, MQTT client construction, broker connect, MQTT
discovery, device transport open. -/
structure BootEnv where
  configOk : Bool
  builderOk : Bool
  connectOk : Bool
  discoveryOk : Bool
  openOk : Bool
deriving DecidableEq, Repr

/-- Bootstrap events, witnessing which collaborators were reached. -/
inductive BEv where
  | buildClient
  | connectBroker
  | discovery
  | openDevice
  | publishErr
  | clearErr
deriving DecidableEq, Repr

/-- Bootstrap outcome: the process exits with the given status code, or
proceeds toward init and the main loop. -/
inductive BootOut where
  | exitCode (c : Nat)
  | proceed
deriving DecidableEq, Repr

/-- The bootstrap sequence of main (src/main.rs lines 39-99): a config
error exits with status 1 before any broker work; an MQTT builder error
calls `std::process::exit(0)`; a broker connect error or a discovery
error propagates out of main (the Rust runtime exits with status 1); a
transport open error publishes the error and then panics on the
`todo!()` marker (a Rust panic terminates the process with status 101). -/
def bootstrap (e : BootEnv) : BootOut × List BEv :=
  if !e.configOk then (BootOut.exitCode 1, [])
  else if !e.builderOk then (BootOut.exitCode 0, [BEv.buildClient])
  else if !e.connectOk then (BootOut.exitCode 1, [BEv.buildClient, BEv.connectBroker])
  else if !e.discoveryOk then
    (BootOut.exitCode 1, [BEv.buildClient, BEv.connectBroker, BEv.discovery])
  else if !e.openOk then
    (BootOut.exitCode 101,
     [BEv.buildClient, BEv.connectBroker, BEv.discovery, BEv.openDevice, BEv.publishErr])
  else
    (BootOut.proceed,
     [BEv.buildClient, BEv.connectBroker, BEv.discovery, BEv.openDevice, BEv.clearErr])

/-- Commands issued in a trace, in order. -/
def execCmds (t : List Event) : List Cmd :=
  t.filterMap fun e =>
    match e with
    | Event.exec c => some c
    | _ => none

/-- Channels published to in a trace, in order. -/
def pubChans (t : List Event) : List Chan :=
  t.filterMap fun e =>
    match e with
    | Event.publish ch _ _ => some ch
    | _ => none

/-- Sleep durations occurring in a trace, in order. -/
def sleepsOf (t : List Event) : List Nat :=
  t.filterMap fun e =>
    match e with
    | Event.sleepSec n => some n
    | _ => none

/-- Tests whether an event is a clear of the error channel: a publish
to the error channel carrying an empty payload. -/
def isClearEv (e : Event) : Bool :=
  match e with
  | Event.publish ch p _ => ch == Chan.error && p == ""
  | _ => false

/-- Counts the error-channel publishes that carry an empty payload. -/
def countClear (t : List Event) : Nat :=
  t.countP isClearEv

/-- The command executor never fails in this environment. -/
def allOk (env : Env) : Prop := ∀ k, ∃ v, env.exec k = Except.ok v

/-- Status commands issued by one inner pass, by mode. -/
def statusCmds (s : Settings) : List Cmd :=
  (if s.mode == "phocos" then (idxList s).map Cmd.qpgs else []) ++
  (if s.mode == "phocos" then [] else [Cmd.qpigs])

/-- Channels published to by one inner pass before the heartbeat, by mode. -/
def statusChans (s : Settings) : List Chan :=
  (if s.mode == "phocos" then
    ((idxList s).filter fun i => qpgsPubCond s i).map Chan.qpgs
   else []) ++
  (if s.mode == "phocos" then [] else [Chan.qpigs])

/-- Commands issued by one inner pass. -/
def innerCmds (s : Settings) : List Cmd := statusCmds s

/-- Channels published to by one inner pass, heartbeat last. -/
def innerChans (s : Settings) : List Chan := statusChans s ++ [Chan.inner_stats]

/-- Commands issued by the outer tier. -/
def outerCmds (s : Settings) : List Cmd :=
  [Cmd.qmod, Cmd.qpiws, if s.mode == "phocos" then Cmd.qpiriReduced else Cmd.qpiri]

/-- Channels published to by the outer tier. -/
def outerChans : List Chan := [Chan.qmod, Chan.qpiws, Chan.qpiri, Chan.outer_stats]

/-- Error shape predicate: the trace ends with a command issue whose
oracle result (at the last consumed executor slot) is the error. -/
def errShape (env : Env) (m : String) (r : Res Unit × St) : Prop :=
  (∃ t c, r.2.trace = t ++ [Event.exec c]) ∧
  env.exec (r.2.execCount - 1) = Except.error m

/-- Channel name rendering: the suffix string used in
`format!("{}/{}", topic, command)`; the per-unit suffix is
`format!("qpgs{}", index)`. -/
def chanName : Chan → String
  | Chan.qid => "qid"
  | Chan.qpi => "qpi"
  | Chan.qvfw => "qvfw"
  | Chan.qmod => "qmod"
  | Chan.qpiws => "qpiws"
  | Chan.qpiri => "qpiri"
  | Chan.qpigs => "qpigs"
  | Chan.qpgs i => String.mk (("qpgs").data ++ decChars i)
  | Chan.inner_stats => "inner_stats"
  | Chan.outer_stats => "outer_stats"
  | Chan.error => "error"

/-- Environment whose command executor, broker and clock all succeed
with fixed values, used to evaluate the model at concrete inputs. -/
def envAll : Env := ⟨fun _ => Except.ok 7, fun _ => true, fun _ => 5⟩

/-- Environment whose broker rejects every publish attempt while the
command executor keeps succeeding. -/
def envNoPub : Env := ⟨fun _ => Except.ok 7, fun _ => false, fun _ => 5⟩

/-- Environment whose k-th command-executor call fails with "boom" and
all other calls succeed. -/
def envFailAt (k : Nat) : Env :=
  ⟨fun j => if j = k then Except.error "boom" else Except.ok 7,
   fun _ => true, fun _ => 5⟩

/-- Default-mode settings with two inner iterations. -/
def sDefault : Settings := ⟨false, 5, 1, 10, 2, 2, "default"⟩

/-- Default-mode settings with a single inner iteration. -/
def sOneInner : Settings := ⟨false, 5, 1, 10, 1, 1, "default"⟩

/-- Alternate-mode settings: two units, debug disabled. -/
def sPhocos : Settings := ⟨false, 5, 1, 10, 2, 1, "phocos"⟩

/-- Alternate-mode settings: two units, debug enabled. -/
def sPhocosDbg : Settings := ⟨true, 5, 1, 10, 2, 1, "phocos"⟩

/-- Alternate-mode settings with ten units, past the dispatch table. -/
def sPhocosTen : Settings := ⟨false, 5, 1, 10, 10, 1, "phocos"⟩

/-- Environment whose identity query (executor slot 0) fails and whose
other calls succeed. -/
def envQidFail : Env :=
  ⟨fun j => if j = 0 then Except.error "qid fail" else Except.ok 7,
   fun _ => true, fun _ => 5⟩

/-- Environment whose protocol-id query (executor slot 1) fails and
whose other calls succeed. -/
def envQpiFail : Env :=
  ⟨fun j => if j = 1 then Except.error "qpi fail" else Except.ok 7,
   fun _ => true, fun _ => 5⟩

/-! Projection lemmas for traces and the state helpers. -/

@[simp] theorem execCmds_nil : execCmds [] = [] := rfl

@[simp] theorem execCmds_append (a b : List Event) :
    execCmds (a ++ b) = execCmds a ++ execCmds b :=
  List.filterMap_append a b _

@[simp] theorem execCmds_cons_exec (c : Cmd) (t : List Event) :
    execCmds (Event.exec c :: t) = c :: execCmds t := by
  simp [execCmds, List.filterMap_cons]

@[simp] theorem execCmds_cons_pub (ch : Chan) (p : String) (d : Bool) (t : List Event) :
    execCmds (Event.publish ch p d :: t) = execCmds t := by
  simp [execCmds, List.filterMap_cons]

@[simp] theorem execCmds_cons_sleep (n : Nat) (t : List Event) :
    execCmds (Event.sleepSec n :: t) = execCmds t := by
  simp [execCmds, List.filterMap_cons]

@[simp] theorem pubChans_nil : pubChans [] = [] := rfl

@[simp] theorem pubChans_append (a b : List Event) :
    pubChans (a ++ b) = pubChans a ++ pubChans b :=
  List.filterMap_append a b _

@[simp] theorem pubChans_cons_exec (c : Cmd) (t : List Event) :
    pubChans (Event.exec c :: t) = pubChans t := by
  simp [pubChans, List.filterMap_cons]

@[simp] theorem pubChans_cons_pub (ch : Chan) (p : String) (d : Bool) (t : List Event) :
    pubChans (Event.publish ch p d :: t) = ch :: pubChans t := by
  simp [pubChans, List.filterMap_cons]

@[simp] theorem pubChans_cons_sleep (n : Nat) (t : List Event) :
    pubChans (Event.sleepSec n :: t) = pubChans t := by
  simp [pubChans, List.filterMap_cons]

@[simp] theorem sleepsOf_nil : sleepsOf [] = [] := rfl

@[simp] theorem sleepsOf_append (a b : List Event) :
    sleepsOf (a ++ b) = sleepsOf a ++ sleepsOf b :=
  List.filterMap_append a b _

@[simp] theorem sleepsOf_cons_exec (c : Cmd) (t : List Event) :
    sleepsOf (Event.exec c :: t) = sleepsOf t := by
  simp [sleepsOf, List.filterMap_cons]

@[simp] theorem sleepsOf_cons_pub (ch : Chan) (p : String) (d : Bool) (t : List Event) :
    sleepsOf (Event.publish ch p d :: t) = sleepsOf t := by
  simp [sleepsOf, List.filterMap_cons]

@[simp] theorem sleepsOf_cons_sleep (n : Nat) (t : List Event) :
    sleepsOf (Event.sleepSec n :: t) = n :: sleepsOf t := by
  simp [sleepsOf, List.filterMap_cons]

@[simp] theorem countClear_nil : countClear [] = 0 := rfl

@[simp] theorem countClear_append (a b : List Event) :
    countClear (a ++ b) = countClear a + countClear b :=
  List.countP_append _ a b

@[simp] theorem countClear_cons_exec (c : Cmd) (t : List Event) :
    countClear (Event.exec c :: t) = countClear t := by
  simp [countClear, List.countP_cons, isClearEv]

@[simp] theorem countClear_cons_sleep (n : Nat) (t : List Event) :
    countClear (Event.sleepSec n :: t) = countClear t := by
  simp [countClear, List.countP_cons, isClearEv]

@[simp] theorem countClear_cons_pub (ch : Chan) (p : String) (d : Bool) (t : List Event) :
    countClear (Event.publish ch p d :: t) =
      countClear t + (if ch = Chan.error ∧ p = "" then 1 else 0) := by
  simp only [countClear, List.countP_cons, isClearEv]
  by_cases h1 : ch = Chan.error <;> by_cases h2 : p = "" <;>
    simp [h1, h2, beq_iff_eq]

@[simp] theorem doExec_fst (env : Env) (c : Cmd) (st : St) :
    (doExec env c st).1 = env.exec st.execCount := rfl

@[simp] theorem doExec_trace (env : Env) (c : Cmd) (st : St) :
    (doExec env c st).2.trace = st.trace ++ [Event.exec c] := rfl

@[simp] theorem doExec_execCount (env : Env) (c : Cmd) (st : St) :
    (doExec env c st).2.execCount = st.execCount + 1 := rfl

@[simp] theorem doPublish_trace (env : Env) (ch : Chan) (p : String) (st : St) :
    (doPublish env ch p st).trace =
      st.trace ++ [Event.publish ch p (publishWithRetry env.pub st.pubCount).2] := rfl

@[simp] theorem doPublish_execCount (env : Env) (ch : Chan) (p : String) (st : St) :
    (doPublish env ch p st).execCount = st.execCount := rfl

@[simp] theorem doTime_snd_trace (env : Env) (st : St) :
    (doTime env st).2.trace = st.trace := rfl

@[simp] theorem doTime_snd_execCount (env : Env) (st : St) :
    (doTime env st).2.execCount = st.execCount := rfl

@[simp] theorem doSleep_trace (n : Nat) (st : St) :
    (doSleep n st).trace = st.trace ++ [Event.sleepSec n] := rfl

@[simp] theorem doSleep_execCount (n : Nat) (st : St) :
    (doSleep n st).execCount = st.execCount := rfl

@[simp] theorem publish_update_fst (env : Env) (ch : Chan) (p : String) (st : St) :
    (publish_update env ch p st).1 = Except.ok () := rfl

@[simp] theorem publish_update_snd (env : Env) (ch : Chan) (p : String) (st : St) :
    (publish_update env ch p st).2 = doPublish env ch p st := rfl

@[simp] theorem publish_error_fst (env : Env) (m : String) (st : St) :
    (publish_error env m st).1 = Except.ok () := rfl

@[simp] theorem publish_error_snd (env : Env) (m : String) (st : St) :
    (publish_error env m st).2 = doPublish env Chan.error m st := rfl

@[simp] theorem clear_error_fst (env : Env) (st : St) :
    (clear_error env st).1 = Except.ok () := rfl

@[simp] theorem clear_error_snd (env : Env) (st : St) :
    (clear_error env st).2 = doPublish env Chan.error "" st := rfl

/-- Splits a pair whose first component is known. -/
theorem eq_pair_of_fst {α β : Type} {p : α × β} {a : α} (h : p.1 = a) : p = (a, p.2) := by
  cases p
  simpa using h

/-! Membership facts about the per-unit index range. -/

theorem mem_idxList {s : Settings} {i : Nat} :
    i ∈ idxList s ↔ startIndex s ≤ i ∧ i ≤ s.inverter_count := by
  unfold idxList startIndex
  by_cases hd : s.debug <;> simp [hd, List.mem_range'_1] <;> omega

theorem mem_idxList_le {s : Settings} {i : Nat} (h : i ∈ idxList s) :
    i ≤ s.inverter_count :=
  (mem_idxList.mp h).2

/-! Behaviour of the per-unit polling loop on success. -/

theorem qpgsLoop_ok (env : Env) (s : Settings) (hok : allOk env) :
    ∀ (idxs : List Nat) (st : St), (∀ i ∈ idxs, i ≤ 9) →
      (qpgsLoop env s idxs st).1 = Res.ok () ∧
      execCmds (qpgsLoop env s idxs st).2.trace =
        execCmds st.trace ++ idxs.map Cmd.qpgs ∧
      pubChans (qpgsLoop env s idxs st).2.trace =
        pubChans st.trace ++ (idxs.filter (qpgsPubCond s)).map Chan.qpgs ∧
      sleepsOf (qpgsLoop env s idxs st).2.trace = sleepsOf st.trace ∧
      countClear (qpgsLoop env s idxs st).2.trace = countClear st.trace := by
  intro idxs
  induction idxs with
  | nil => intro st _; simp [qpgsLoop]
  | cons i rest ih =>
    intro st h
    have hi : i ≤ 9 := h i (List.mem_cons_self i rest)
    obtain ⟨v, hv⟩ := hok st.execCount
    have hrest : ∀ j ∈ rest, j ≤ 9 := fun j hj => h j (List.mem_cons_of_mem i hj)
    by_cases hc : qpgsPubCond s i
    · have hred : qpgsLoop env s (i :: rest) st =
          qpgsLoop env s rest
            (doPublish env (Chan.qpgs i) (serVal v)
              { st with execCount := st.execCount + 1,
                        trace := st.trace ++ [Event.exec (Cmd.qpgs i)] }) := by
        simp [qpgsLoop, hi, doExec, hv, hc]
      rw [hred]
      obtain ⟨h1, h2, h3, h4, h5⟩ := ih _ hrest
      refine ⟨h1, ?_, ?_, ?_, ?_⟩
      · rw [h2]; simp [hc]
      · rw [h3]; simp [hc, List.filter_cons]
      · rw [h4]; simp
      · rw [h5]; simp
    · have hred : qpgsLoop env s (i :: rest) st =
          qpgsLoop env s rest
            { st with execCount := st.execCount + 1,
                      trace := st.trace ++ [Event.exec (Cmd.qpgs i)] } := by
        simp [qpgsLoop, hi, doExec, hv, hc]
      rw [hred]
      obtain ⟨h1, h2, h3, h4, h5⟩ := ih _ hrest
      refine ⟨h1, ?_, ?_, ?_, ?_⟩
      · rw [h2]; simp
      · rw [h3]; simp [hc, List.filter_cons]
      · rw [h4]; simp
      · rw [h5]; simp

/-! Behaviour of one inner pass on success. -/

theorem innerPass_ok (env : Env) (s : Settings) (hok : allOk env)
    (hc : s.inverter_count ≤ 9) (st : St) :
    (innerPass env s st).1 = Res.ok () ∧
    execCmds (innerPass env s st).2.trace = execCmds st.trace ++ innerCmds s ∧
    pubChans (innerPass env s st).2.trace = pubChans st.trace ++ innerChans s ∧
    sleepsOf (innerPass env s st).2.trace = sleepsOf st.trace ++ [s.inner_delay] ∧
    countClear (innerPass env s st).2.trace = countClear st.trace := by
  by_cases hm : s.mode == "phocos"
  · have hidx : ∀ i ∈ idxList s, i ≤ 9 := fun i hi => le_trans (mem_idxList_le hi) hc
    obtain ⟨h1, h2, h3, h4, h5⟩ := qpgsLoop_ok env s hok (idxList s) st hidx
    rw [innerPass, if_pos hm, eq_pair_of_fst h1]
    simp only [if_neg (by simp [hm] : ¬(!(s.mode == "phocos")) = true)]
    simp [doTime, doSleep, h2, h3, h4, h5, innerCmds, innerChans, statusCmds, statusChans, hm]
  · obtain ⟨v, hv⟩ := hok st.execCount
    rw [innerPass, if_neg hm]
    simp only [if_pos (by simp [hm] : (!(s.mode == "phocos")) = true)]
    simp [doExec, hv, doTime, doSleep, innerCmds, innerChans, statusCmds, statusChans, hm]

/-! Behaviour of the inner iteration loop on success. -/

theorem innerLoop_ok (env : Env) (s : Settings) (hok : allOk env)
    (hc : s.inverter_count ≤ 9) :
    ∀ (k : Nat) (st : St),
      (innerLoop env s k st).1 = Res.ok () ∧
      execCmds (innerLoop env s k st).2.trace =
        execCmds st.trace ++ (List.replicate k (innerCmds s)).flatten ∧
      pubChans (innerLoop env s k st).2.trace =
        pubChans st.trace ++ (List.replicate k (innerChans s)).flatten ∧
      sleepsOf (innerLoop env s k st).2.trace =
        sleepsOf st.trace ++ List.replicate k s.inner_delay ∧
      countClear (innerLoop env s k st).2.trace = countClear st.trace := by
  intro k
  induction k with
  | zero => intro st; simp [innerLoop]
  | succ k ih =>
    intro st
    obtain ⟨h1, h2, h3, h4, h5⟩ := innerPass_ok env s hok hc st
    rw [innerLoop, eq_pair_of_fst h1]
    simp only []
    obtain ⟨g1, g2, g3, g4, g5⟩ := ih (innerPass env s st).2
    refine ⟨g1, ?_, ?_, ?_, ?_⟩
    · rw [g2, h2]; simp [List.replicate_succ]
    · rw [g3, h3]; simp [List.replicate_succ]
    · rw [g4, h4]; simp [List.replicate_succ]
    · rw [g5, h5]

/-! Behaviour of the outer tier on success. -/

theorem outerFinalize_ok (env : Env) (s : Settings) (hok : allOk env) (st : St) :
    (outerFinalize env s st).1 = Res.ok () ∧
    execCmds (outerFinalize env s st).2.trace = execCmds st.trace ++ outerCmds s ∧
    pubChans (outerFinalize env s st).2.trace = pubChans st.trace ++ outerChans ∧
    sleepsOf (outerFinalize env s st).2.trace = sleepsOf st.trace ++ [s.outer_delay] ∧
    countClear (outerFinalize env s st).2.trace = countClear st.trace := by
  obtain ⟨v1, hv1⟩ := hok st.execCount
  obtain ⟨v2, hv2⟩ := hok (st.execCount + 1)
  obtain ⟨v3, hv3⟩ := hok (st.execCount + 1 + 1)
  by_cases hm : s.mode == "phocos" <;>
    simp [outerFinalize, doExec, doPublish, doTime, doSleep, hm, hv1, hv2, hv3,
          outerCmds, outerChans]

/-! Behaviour of one full outer pass on success. -/

theorem update_ok (env : Env) (s : Settings) (hok : allOk env)
    (hc : s.inverter_count ≤ 9) :
    (update env s).1 = Res.ok () ∧
    execCmds (update env s).2.trace =
      (List.replicate s.inner_iterations (innerCmds s)).flatten ++ outerCmds s ∧
    pubChans (update env s).2.trace =
      (List.replicate s.inner_iterations (innerChans s)).flatten ++ outerChans ∧
    sleepsOf (update env s).2.trace =
      List.replicate s.inner_iterations s.inner_delay ++ [s.outer_delay] ∧
    countClear (update env s).2.trace = 0 := by
  obtain ⟨h1, h2, h3, h4, h5⟩ := innerLoop_ok env s hok hc s.inner_iterations st0
  rw [update, eq_pair_of_fst h1]
  simp only []
  obtain ⟨g1, g2, g3, g4, g5⟩ :=
    outerFinalize_ok env s hok (innerLoop env s s.inner_iterations st0).2
  refine ⟨g1, ?_, ?_, ?_, ?_⟩
  · rw [g2, h2]; simp [st0, execCmds]
  · rw [g3, h3]; simp [st0, pubChans]
  · rw [g4, h4]; simp [st0, sleepsOf]
  · rw [g5, h5]; simp [st0, countClear]

/-! Error shape: a failing phase always stops at the failing command,
so the trace ends with the command whose oracle slot produced the
error and nothing is issued or published afterwards. -/

theorem qpgsLoop_err (env : Env) (s : Settings) (m : String) :
    ∀ (idxs : List Nat) (st : St),
      (qpgsLoop env s idxs st).1 = Res.err m →
      errShape env m (qpgsLoop env s idxs st) := by
  intro idxs
  induction idxs with
  | nil => intro st h; simp [qpgsLoop] at h
  | cons i rest ih =>
    intro st h
    by_cases hi : i ≤ 9
    · cases henv : env.exec st.execCount with
      | error m2 =>
        have hred : qpgsLoop env s (i :: rest) st =
            (Res.err m2,
             { st with execCount := st.execCount + 1,
                       trace := st.trace ++ [Event.exec (Cmd.qpgs i)] }) := by
          simp [qpgsLoop, hi, doExec, henv]
        rw [hred] at h ⊢
        cases h
        exact ⟨⟨st.trace, Cmd.qpgs i, rfl⟩, by simpa using henv⟩
      | ok v =>
        by_cases hc : qpgsPubCond s i
        · have hred : qpgsLoop env s (i :: rest) st =
              qpgsLoop env s rest
                (doPublish env (Chan.qpgs i) (serVal v)
                  { st with execCount := st.execCount + 1,
                            trace := st.trace ++ [Event.exec (Cmd.qpgs i)] }) := by
            simp [qpgsLoop, hi, doExec, henv, hc]
          rw [hred] at h ⊢
          exact ih _ h
        · have hred : qpgsLoop env s (i :: rest) st =
              qpgsLoop env s rest
                { st with execCount := st.execCount + 1,
                          trace := st.trace ++ [Event.exec (Cmd.qpgs i)] } := by
            simp [qpgsLoop, hi, doExec, henv, hc]
          rw [hred] at h ⊢
          exact ih _ h
    · have hred : qpgsLoop env s (i :: rest) st = (Res.panic, st) := by
        simp [qpgsLoop, hi]
      rw [hred] at h
      cases h

theorem innerPass_err (env : Env) (s : Settings) (m : String) (st : St)
    (h : (innerPass env s st).1 = Res.err m) :
    errShape env m (innerPass env s st) := by
  by_cases hm : s.mode == "phocos"
  · rw [innerPass, if_pos hm] at h ⊢
    cases hq : qpgsLoop env s (idxList s) st with
    | mk res st1 =>
      rw [hq] at h
      cases res with
      | ok a =>
        simp only [if_neg (by simp [hm] : ¬(!(s.mode == "phocos")) = true)] at h
        simp at h
      | err m2 =>
        simp only [] at h ⊢
        cases h
        have := qpgsLoop_err env s m (idxList s) st (by rw [hq])
        rwa [hq] at this
      | panic => simp at h
  · rw [innerPass, if_neg hm] at h ⊢
    simp only [if_pos (by simp [hm] : (!(s.mode == "phocos")) = true)] at h ⊢
    cases henv : env.exec st.execCount with
    | error m2 =>
      simp only [doExec, henv] at h ⊢
      cases h
      exact ⟨⟨st.trace, Cmd.qpigs, rfl⟩, by simpa using henv⟩
    | ok v =>
      simp only [doExec, henv] at h
      simp at h

theorem innerLoop_err (env : Env) (s : Settings) (m : String) :
    ∀ (k : Nat) (st : St),
      (innerLoop env s k st).1 = Res.err m →
      errShape env m (innerLoop env s k st) := by
  intro k
  induction k with
  | zero => intro st h; simp [innerLoop] at h
  | succ k ih =>
    intro st h
    rw [innerLoop] at h ⊢
    cases hp : innerPass env s st with
    | mk res st1 =>
      rw [hp] at h
      cases res with
      | ok a => exact ih _ h
      | err m2 =>
        simp only [] at h ⊢
        cases h
        have := innerPass_err env s m st (by rw [hp])
        rwa [hp] at this
      | panic => simp at h

theorem outerFinalize_err (env : Env) (s : Settings) (m : String) (st : St)
    (h : (outerFinalize env s st).1 = Res.err m) :
    errShape env m (outerFinalize env s st) := by
  rw [outerFinalize] at h ⊢
  cases h1 : env.exec st.execCount with
  | error m1 =>
    simp only [doExec, h1] at h ⊢
    cases h
    exact ⟨⟨st.trace, Cmd.qmod, rfl⟩, by simpa using h1⟩
  | ok v1 =>
    simp only [doExec, h1] at h ⊢
    cases h2 : env.exec (st.execCount + 1) with
    | error m2 =>
      simp only [publish_update_snd, doPublish, h2] at h ⊢
      cases h
      refine ⟨⟨_, Cmd.qpiws, rfl⟩, ?_⟩
      simpa using h2
    | ok v2 =>
      simp only [publish_update_snd, doPublish, h2] at h ⊢
      by_cases hm : s.mode == "phocos"
      · simp only [if_neg (by simp [hm] : ¬(!(s.mode == "phocos")) = true)] at h ⊢
        cases h3 : env.exec (st.execCount + 1 + 1) with
        | error m3 =>
          simp only [publish_update_snd, doPublish, h3] at h ⊢
          cases h
          refine ⟨⟨_, Cmd.qpiriReduced, rfl⟩, ?_⟩
          simpa using h3
        | ok v3 =>
          simp only [publish_update_snd, doPublish, h3, doTime, doSleep] at h
          simp at h
      · simp only [if_pos (by simp [hm] : (!(s.mode == "phocos")) = true)] at h ⊢
        cases h3 : env.exec (st.execCount + 1 + 1) with
        | error m3 =>
          simp only [publish_update_snd, doPublish, h3] at h ⊢
          cases h
          refine ⟨⟨_, Cmd.qpiri, rfl⟩, ?_⟩
          simpa using h3
        | ok v3 =>
          simp only [publish_update_snd, doPublish, h3, doTime, doSleep] at h
          simp at h

theorem update_err (env : Env) (s : Settings) (m : String)
    (h : (update env s).1 = Res.err m) :
    errShape env m (update env s) := by
  rw [update] at h ⊢
  cases hl : innerLoop env s s.inner_iterations st0 with
  | mk res st1 =>
    rw [hl] at h
    cases res with
    | ok a => exact outerFinalize_err env s m st1 h
    | err m2 =>
      simp only [] at h ⊢
      cases h
      have := innerLoop_err env s m s.inner_iterations st0 (by rw [hl])
      rwa [hl] at this
    | panic => simp at h

/-! Panic analysis of the per-unit dispatch (the `unimplemented!()` arm). -/

theorem qpgsLoop_append (env : Env) (s : Settings) :
    ∀ (l1 l2 : List Nat) (st : St),
      qpgsLoop env s (l1 ++ l2) st =
        match qpgsLoop env s l1 st with
        | (Res.ok _, st1) => qpgsLoop env s l2 st1
        | r => r := by
  intro l1
  induction l1 with
  | nil => intro l2 st; simp [qpgsLoop]
  | cons i rest ih =>
    intro l2 st
    by_cases hi : i ≤ 9
    · cases henv : env.exec st.execCount with
      | error m =>
        simp [qpgsLoop, hi, doExec, henv]
      | ok v =>
        by_cases hc : qpgsPubCond s i <;>
          simp [qpgsLoop, hi, doExec, henv, hc, ih]
    · simp [qpgsLoop, hi]

theorem qpgsLoop_no_panic (env : Env) (s : Settings) :
    ∀ (idxs : List Nat) (st : St), (∀ i ∈ idxs, i ≤ 9) →
      (qpgsLoop env s idxs st).1 ≠ Res.panic := by
  intro idxs
  induction idxs with
  | nil => intro st _ h; simp [qpgsLoop] at h
  | cons i rest ih =>
    intro st h
    have hi : i ≤ 9 := h i (List.mem_cons_self i rest)
    have hrest : ∀ j ∈ rest, j ≤ 9 := fun j hj => h j (List.mem_cons_of_mem i hj)
    cases henv : env.exec st.execCount with
    | error m =>
      have hred : (qpgsLoop env s (i :: rest) st).1 = Res.err m := by
        simp [qpgsLoop, hi, doExec, henv]
      rw [hred]
      simp
    | ok v =>
      by_cases hc : qpgsPubCond s i
      · have hred : qpgsLoop env s (i :: rest) st =
            qpgsLoop env s rest
              (doPublish env (Chan.qpgs i) (serVal v)
                { st with execCount := st.execCount + 1,
                          trace := st.trace ++ [Event.exec (Cmd.qpgs i)] }) := by
          simp [qpgsLoop, hi, doExec, henv, hc]
        rw [hred]
        exact ih _ hrest
      · have hred : qpgsLoop env s (i :: rest) st =
            qpgsLoop env s rest
              { st with execCount := st.execCount + 1,
                        trace := st.trace ++ [Event.exec (Cmd.qpgs i)] } := by
          simp [qpgsLoop, hi, doExec, henv, hc]
        rw [hred]
        exact ih _ hrest

theorem innerPass_no_panic (env : Env) (s : Settings) (st : St)
    (hc : s.inverter_count ≤ 9) :
    (innerPass env s st).1 ≠ Res.panic := by
  by_cases hm : s.mode == "phocos"
  · rw [innerPass, if_pos hm]
    cases hq : qpgsLoop env s (idxList s) st with
    | mk res st1 =>
      cases res with
      | ok a =>
        simp only [if_neg (by simp [hm] : ¬(!(s.mode == "phocos")) = true)]
        simp
      | err m => simp
      | panic =>
        have hidx : ∀ i ∈ idxList s, i ≤ 9 := fun i hi => le_trans (mem_idxList_le hi) hc
        have := qpgsLoop_no_panic env s (idxList s) st hidx
        rw [hq] at this
        simp at this
  · rw [innerPass, if_neg hm]
    simp only [if_pos (by simp [hm] : (!(s.mode == "phocos")) = true)]
    cases henv : env.exec st.execCount with
    | error m => simp [doExec, henv]
    | ok v => simp [doExec, henv]

theorem innerLoop_no_panic (env : Env) (s : Settings) (hc : s.inverter_count ≤ 9) :
    ∀ (k : Nat) (st : St), (innerLoop env s k st).1 ≠ Res.panic := by
  intro k
  induction k with
  | zero => intro st; simp [innerLoop]
  | succ k ih =>
    intro st
    rw [innerLoop]
    cases hp : innerPass env s st with
    | mk res st1 =>
      cases res with
      | ok a => exact ih st1
      | err m => simp
      | panic =>
        have := innerPass_no_panic env s st hc
        rw [hp] at this
        simp at this

theorem outerFinalize_no_panic (env : Env) (s : Settings) (st : St) :
    (outerFinalize env s st).1 ≠ Res.panic := by
  rw [outerFinalize]
  cases h1 : env.exec st.execCount with
  | error m1 => simp [doExec, h1]
  | ok v1 =>
    simp only [doExec, h1]
    cases h2 : env.exec (st.execCount + 1) with
    | error m2 => simp [publish_update_snd, doPublish, h2]
    | ok v2 =>
      simp only [publish_update_snd, doPublish, h2]
      by_cases hm : s.mode == "phocos"
      · simp only [if_neg (by simp [hm] : ¬(!(s.mode == "phocos")) = true)]
        cases h3 : env.exec (st.execCount + 1 + 1) with
        | error m3 => simp [publish_update_snd, doPublish, h3]
        | ok v3 => simp [publish_update_snd, doPublish, h3, doTime, doSleep]
      · simp only [if_pos (by simp [hm] : (!(s.mode == "phocos")) = true)]
        cases h3 : env.exec (st.execCount + 1 + 1) with
        | error m3 => simp [publish_update_snd, doPublish, h3]
        | ok v3 => simp [publish_update_snd, doPublish, h3, doTime, doSleep]

theorem update_no_panic (env : Env) (s : Settings) (hc : s.inverter_count ≤ 9) :
    (update env s).1 ≠ Res.panic := by
  rw [update]
  cases hl : innerLoop env s s.inner_iterations st0 with
  | mk res st1 =>
    cases res with
    | ok a => exact outerFinalize_no_panic env s st1
    | err m => simp
    | panic =>
      have := innerLoop_no_panic env s hc s.inner_iterations st0
      rw [hl] at this
      simp at this

theorem startIndex_le_one (s : Settings) : startIndex s ≤ 1 := by
  unfold startIndex
  split <;> omega

theorem update_panic_of_ge_ten (env : Env) (s : Settings) (hok : allOk env)
    (hm : (s.mode == "phocos") = true) (hcount : 10 ≤ s.inverter_count)
    (hk : 1 ≤ s.inner_iterations) :
    (update env s).1 = Res.panic ∧
    execCmds (update env s).2.trace =
      (List.range' (startIndex s) (10 - startIndex s)).map Cmd.qpgs := by
  have hs1 : startIndex s ≤ 1 := startIndex_le_one s
  have hsplit : idxList s =
      List.range' (startIndex s) (10 - startIndex s) ++
        (10 :: List.range' 11 (s.inverter_count - 10)) := by
    unfold idxList
    rw [show s.inverter_count + 1 - startIndex s =
          (s.inverter_count - 9) + (10 - startIndex s) from by omega]
    rw [← List.range'_append_1]
    rw [show startIndex s + (10 - startIndex s) = 10 from by omega]
    rw [show s.inverter_count - 9 = (s.inverter_count - 10) + 1 from by omega]
    rw [List.range'_succ]
  have hl1 : ∀ i ∈ List.range' (startIndex s) (10 - startIndex s), i ≤ 9 := by
    intro i hi
    rw [List.mem_range'_1] at hi
    omega
  obtain ⟨h1, h2, _, _, _⟩ :=
    qpgsLoop_ok env s hok (List.range' (startIndex s) (10 - startIndex s)) st0 hl1
  have hqp : (qpgsLoop env s (idxList s) st0).1 = Res.panic ∧
      execCmds (qpgsLoop env s (idxList s) st0).2.trace =
        (List.range' (startIndex s) (10 - startIndex s)).map Cmd.qpgs := by
    rw [hsplit, qpgsLoop_append, eq_pair_of_fst h1]
    simp only []
    constructor
    · simp [qpgsLoop]
    · simp only [qpgsLoop, if_neg (by omega : ¬ (10 : Nat) ≤ 9)]
      rw [h2]
      simp [st0]
  have hip : (innerPass env s st0).1 = Res.panic ∧
      execCmds (innerPass env s st0).2.trace =
        (List.range' (startIndex s) (10 - startIndex s)).map Cmd.qpgs := by
    rw [innerPass, if_pos hm, eq_pair_of_fst hqp.1]
    simp only []
    exact ⟨by simp, hqp.2⟩
  obtain ⟨k, hk2⟩ : ∃ k, s.inner_iterations = k + 1 :=
    ⟨s.inner_iterations - 1, by omega⟩
  have hil : (innerLoop env s s.inner_iterations st0).1 = Res.panic ∧
      execCmds (innerLoop env s s.inner_iterations st0).2.trace =
        (List.range' (startIndex s) (10 - startIndex s)).map Cmd.qpgs := by
    rw [hk2, innerLoop, eq_pair_of_fst hip.1]
    simp only []
    exact ⟨by simp, hip.2⟩
  rw [update, eq_pair_of_fst hil.1]
  simp only []
  exact ⟨by simp, hil.2⟩

/-! Bounded-retry analysis of the broker publish loop. -/

theorem attemptLoop_spec (a : Nat → Bool) :
    ∀ (k start : Nat),
      (attemptLoop a start k).1 ≤ k ∧
      ((attemptLoop a start k).2 = true → 1 ≤ (attemptLoop a start k).1) ∧
      ((attemptLoop a start k).2 = true →
        a (start + ((attemptLoop a start k).1 - 1)) = true ∧
        ∀ j, j + 1 < (attemptLoop a start k).1 → a (start + j) = false) ∧
      ((attemptLoop a start k).2 = false →
        (attemptLoop a start k).1 = k ∧ ∀ j, j < k → a (start + j) = false) := by
  intro k
  induction k with
  | zero => intro start; simp [attemptLoop]
  | succ k ih =>
    intro start
    by_cases ha : a start
    · have hred : attemptLoop a start (k + 1) = (1, true) := by
        simp [attemptLoop, ha]
      rw [hred]
      refine ⟨by omega, fun _ => le_refl 1, fun _ => ⟨by simpa using ha, ?_⟩, by simp⟩
      intro j hj
      omega
    · have hred : attemptLoop a start (k + 1) =
          ((attemptLoop a (start + 1) k).1 + 1, (attemptLoop a (start + 1) k).2) := by
        simp [attemptLoop, ha]
      rw [hred]
      obtain ⟨g1, g0, g2, g3⟩ := ih (start + 1)
      refine ⟨by omega, fun _ => by omega, ?_, ?_⟩
      · intro hb
        obtain ⟨p1, p2⟩ := g2 hb
        have hone := g0 hb
        constructor
        · rw [show start + ((attemptLoop a (start + 1) k).1 + 1 - 1) =
                start + 1 + ((attemptLoop a (start + 1) k).1 - 1) from by omega]
          exact p1
        · intro j hj
          cases j with
          | zero => simpa using ha
          | succ j2 =>
            rw [show start + (j2 + 1) = start + 1 + j2 from by omega]
            exact p2 j2 (by omega)
      · intro hb
        obtain ⟨p1, p2⟩ := g3 hb
        refine ⟨by omega, ?_⟩
        intro j hj
        cases j with
        | zero => simpa using ha
        | succ j2 =>
          rw [show start + (j2 + 1) = start + 1 + j2 from by omega]
          exact p2 j2 (by omega)

/-! Round trip of the Stats serialization. -/

theorem stripPref_append : ∀ (p r : List Char), stripPref p (p ++ r) = some r := by
  intro p
  induction p with
  | nil => intro r; simp [stripPref]
  | cons c cs ih => intro r; simp [stripPref, ih]

theorem toDigitsAux_lt10 :
    ∀ (fuel n : Nat), n < fuel → ∀ d ∈ toDigitsAux fuel n, d < 10 := by
  intro fuel
  induction fuel with
  | zero => intro n h; omega
  | succ fuel ih =>
    intro n h d hd
    by_cases h10 : n < 10
    · simp only [toDigitsAux, if_pos h10, List.mem_singleton] at hd
      omega
    · simp only [toDigitsAux, if_neg h10, List.mem_cons] at hd
      rcases hd with hd | hd
      · have : n % 10 < 10 := Nat.mod_lt n (by omega)
        omega
      · have hdiv : n / 10 < fuel := by
          have := Nat.div_lt_self (show 0 < n by omega) (show 1 < 10 by omega)
          omega
        exact ih (n / 10) hdiv d hd

theorem toDigitsAux_foldl :
    ∀ (fuel n acc : Nat), n < fuel →
      (toDigitsAux fuel n).reverse.foldl (fun a x => 10 * a + x) acc =
        acc * 10 ^ (toDigitsAux fuel n).length + n := by
  intro fuel
  induction fuel with
  | zero => intro n acc h; omega
  | succ fuel ih =>
    intro n acc h
    by_cases h10 : n < 10
    · simp [toDigitsAux, if_pos h10]
      omega
    · simp only [toDigitsAux, if_neg h10, List.reverse_cons, List.foldl_append,
        List.length_cons]
      have hdiv : n / 10 < fuel := by
        have := Nat.div_lt_self (show 0 < n by omega) (show 1 < 10 by omega)
        omega
      rw [ih (n / 10) acc hdiv]
      simp only [List.foldl_cons, List.foldl_nil]
      rw [pow_succ, ← mul_assoc]
      have hA : acc * 10 ^ (toDigitsAux fuel (n / 10)).length =
          acc * 10 ^ (toDigitsAux fuel (n / 10)).length := rfl
      generalize acc * 10 ^ (toDigitsAux fuel (n / 10)).length = A at hA ⊢
      omega

theorem digitChar_facts (d : Nat) (hd : d < 10) :
    ¬ digitChar d = rbraceC ∧ 48 ≤ (digitChar d).toNat ∧ (digitChar d).toNat ≤ 57 ∧
    (digitChar d).toNat - 48 = d := by
  interval_cases d <;> exact ⟨by decide, by decide, by decide, by decide⟩

theorem parseDur_digits :
    ∀ (l : List Nat) (acc : Nat), (∀ d ∈ l, d < 10) →
      parseDur (l.map digitChar ++ [rbraceC]) acc =
        some (l.foldl (fun a x => 10 * a + x) acc) := by
  intro l
  induction l with
  | nil =>
    intro acc _
    simp [parseDur]
  | cons d rest ih =>
    intro acc h
    have hd := digitChar_facts d (h d (List.mem_cons_self d rest))
    simp only [List.map_cons, List.cons_append, parseDur]
    rw [if_neg hd.1, if_pos ⟨hd.2.1, hd.2.2.1⟩, hd.2.2.2]
    simpa using ih (10 * acc + d) (fun x hx => h x (List.mem_cons_of_mem d hx))

theorem stats_roundtrip_aux (d : Nat) : deStats (serStats ⟨d⟩) = some ⟨d⟩ := by
  unfold deStats serStats
  have hdata : (String.mk (statsKeyChars ++ decChars d ++ [rbraceC])).data =
      statsKeyChars ++ (decChars d ++ [rbraceC]) := by
    simp [List.append_assoc]
  rw [hdata, stripPref_append]
  have hlt : ∀ x ∈ (toDigitsRev d).reverse, x < 10 := by
    intro x hx
    exact toDigitsAux_lt10 (d + 1) d (by omega) x (List.mem_reverse.mp hx)
  simp only []
  unfold decChars
  rw [parseDur_digits _ 0 hlt]
  simp only []
  unfold toDigitsRev
  rw [toDigitsAux_foldl (d + 1) d 0 (by omega)]
  simp

/-! Counting helpers for the heartbeat channel. -/

theorem count_flatten_replicate {α : Type} [DecidableEq α] (n : Nat) (l : List α) (x : α) :
    ((List.replicate n l).flatten).count x = n * l.count x := by
  induction n with
  | zero => simp
  | succ n ih =>
    simp only [List.replicate_succ, List.flatten_cons, List.count_append, ih]
    ring

theorem inner_stats_not_mem_statusChans (s : Settings) :
    Chan.inner_stats ∉ statusChans s := by
  intro h
  unfold statusChans at h
  by_cases hm : s.mode == "phocos" <;> simp [hm] at h

theorem count_inner_stats_innerChans (s : Settings) :
    (innerChans s).count Chan.inner_stats = 1 := by
  unfold innerChans
  rw [List.count_append]
  rw [List.count_eq_zero.mpr (inner_stats_not_mem_statusChans s)]
  simp

theorem count_inner_stats_outerChans : outerChans.count Chan.inner_stats = 0 := by decide

/-- Claim C2: for every inner_iterations value, one outer pass runs
exactly that many inner passes (each publishing its status results and
one inner_stats heartbeat, then sleeping inner_delay) before the
outer-tier commands run, qmod first; inner_iterations = 0 runs zero
inner passes and goes straight to the outer tier (the model is a total
function, so the degenerate case terminates and involves no division). -/
theorem update_inner_iterations_exact (env : Env) (s : Settings)
    (hok : allOk env) (hc : s.inverter_count ≤ 9) :
    (update env s).1 = Res.ok () ∧
    execCmds (update env s).2.trace =
      (List.replicate s.inner_iterations (innerCmds s)).flatten ++ outerCmds s ∧
    pubChans (update env s).2.trace =
      (List.replicate s.inner_iterations (innerChans s)).flatten ++ outerChans ∧
    sleepsOf (update env s).2.trace =
      List.replicate s.inner_iterations s.inner_delay ++ [s.outer_delay] ∧
    (pubChans (update env s).2.trace).count Chan.inner_stats = s.inner_iterations ∧
    (∀ c ∈ (List.replicate s.inner_iterations (innerCmds s)).flatten,
      c = Cmd.qpigs ∨ ∃ i, c = Cmd.qpgs i) ∧
    (s.inner_iterations = 0 → execCmds (update env s).2.trace = outerCmds s) := by
  obtain ⟨h1, h2, h3, h4, h5⟩ := update_ok env s hok hc
  refine ⟨h1, h2, h3, h4, ?_, ?_, ?_⟩
  · rw [h3, List.count_append, count_flatten_replicate,
      count_inner_stats_innerChans, count_inner_stats_outerChans]
    omega
  · intro c hcm
    simp only [List.mem_flatten, List.mem_replicate] at hcm
    obtain ⟨l, ⟨_, rfl⟩, hcl⟩ := hcm
    unfold innerCmds statusCmds at hcl
    by_cases hm : s.mode == "phocos"
    · simp [hm] at hcl
      obtain ⟨i, _, rfl⟩ := hcl
      exact Or.inr ⟨i, rfl⟩
    · simp [hm] at hcl
      exact Or.inl hcl
  · intro h0
    rw [h2, h0]
    simp

/-- Claim C2 witness: concrete default-mode run with two inner
iterations, exercising the theorem at an all-success environment. -/
theorem update_inner_iterations_exact_witness :
    allOk envAll ∧ sDefault.inverter_count ≤ 9 ∧
    (update envAll sDefault).1 = Res.ok () ∧
    (pubChans (update envAll sDefault).2.trace).count Chan.inner_stats =
      sDefault.inner_iterations := by
  have hok : allOk envAll := fun k => ⟨7, rfl⟩
  have h := update_inner_iterations_exact envAll sDefault hok (by decide)
  exact ⟨hok, by decide, h.1, h.2.2.2.2.1⟩

/-- Claim C7: the code-bug evaluation of the bootstrap sequence.  A
missing or malformed configuration exits with status 1 before any
broker work (empty event list); a broker connect failure exits with
status 1; a transport open failure publishes the error and dies from
the todo marker panic, status 101; but an MQTT client builder failure
calls process exit with status 0 — a successful status for a fatal
bootstrap failure, contradicting the claim. -/
theorem bootstrap_exit_status_evaluation :
    bootstrap ⟨true, false, true, true, true⟩ = (BootOut.exitCode 0, [BEv.buildClient]) ∧
    bootstrap ⟨false, true, true, true, true⟩ = (BootOut.exitCode 1, []) ∧
    bootstrap ⟨true, true, false, true, true⟩ =
      (BootOut.exitCode 1, [BEv.buildClient, BEv.connectBroker]) ∧
    bootstrap ⟨true, true, true, true, false⟩ =
      (BootOut.exitCode 101,
       [BEv.buildClient, BEv.connectBroker, BEv.discovery, BEv.openDevice,
        BEv.publishErr]) := by
  decide

/-- Claim C9: the Stats telemetry serialization is lossless for the
duration field over the whole range of the u128 duration type: decoding
the serialized payload returns exactly the original duration. -/
theorem stats_duration_roundtrip (d : Nat) (_h : d < 2 ^ 128) :
    deStats (serStats ⟨d⟩) = some ⟨d⟩ :=
  stats_roundtrip_aux d

/-- Claim C9 witness: the round trip evaluated at a concrete duration. -/
theorem stats_duration_roundtrip_witness :
    12345 < 2 ^ 128 ∧ deStats (serStats ⟨12345⟩) = some ⟨12345⟩ :=
  ⟨by norm_num, stats_duration_roundtrip 12345 (by norm_num)⟩

/-- Claim C10: with at most nine units every index the polling loop can
reach maps to a concrete QPGSn command and the unimplemented-dispatch
panic arm is unreachable for any executor behaviour; with ten or more
units (alternate mode, at least one inner iteration, commands
succeeding) the first inner pass walks indices up to 9 and then panics
the process at index 10, before issuing any further command. -/
theorem qpgs_dispatch_panic_boundary (env : Env) (s : Settings) :
    (s.inverter_count ≤ 9 → (update env s).1 ≠ Res.panic) ∧
    (s.mode = "phocos" → 10 ≤ s.inverter_count → allOk env →
      1 ≤ s.inner_iterations →
      (update env s).1 = Res.panic ∧
      execCmds (update env s).2.trace =
        (List.range' (startIndex s) (10 - startIndex s)).map Cmd.qpgs ∧
      (mainStep env s).1 = StepOut.died) := by
  constructor
  · intro hc
    exact update_no_panic env s hc
  · intro hm hcount hok hk
    have hm2 : (s.mode == "phocos") = true := by simp [hm]
    obtain ⟨h1, h2⟩ := update_panic_of_ge_ten env s hok hm2 hcount hk
    refine ⟨h1, h2, ?_⟩
    rw [mainStep, eq_pair_of_fst h1]

/-- Claim C10 witness: ten units panic on the first inner pass, two
units never panic, at the all-success environment. -/
theorem qpgs_dispatch_panic_boundary_witness :
    (update envAll sPhocosTen).1 = Res.panic ∧
    (update envAll sPhocos).1 ≠ Res.panic := by
  have hok : allOk envAll := fun k => ⟨7, rfl⟩
  refine ⟨((qpgs_dispatch_panic_boundary envAll sPhocosTen).2 rfl (by decide) hok
    (by decide)).1, (qpgs_dispatch_panic_boundary envAll sPhocos).1 (by decide)⟩

/-- Claim C1, corrected: counterexample to the claim as stated.  In a
default-mode pass where the broker rejects every delivery attempt, all
result publishes fail (delivered = false after five attempts), yet the
pass is not abandoned: after the first failed publish the engine issues
three further commands (qmod, qpiws, qpiri) and the pass completes
successfully, because publish_update swallows broker failures. -/
theorem update_publish_failure_not_abandoned :
    (update envNoPub sOneInner).1 = Res.ok () ∧
    (update envNoPub sOneInner).2.trace =
      [Event.exec Cmd.qpigs,
       Event.publish Chan.qpigs (serVal 7) false,
       Event.publish Chan.inner_stats (serStats ⟨5⟩) false,
       Event.sleepSec 1,
       Event.exec Cmd.qmod,
       Event.publish Chan.qmod (serVal 7) false,
       Event.exec Cmd.qpiws,
       Event.publish Chan.qpiws (serVal 7) false,
       Event.exec Cmd.qpiri,
       Event.publish Chan.qpiri (serVal 7) false,
       Event.publish Chan.outer_stats (serStats ⟨5⟩) false,
       Event.sleepSec 5] := by
  decide

/-- Claim C1, amended: for every command-executor failure during a
polling pass, the pass is abandoned immediately — the trace ends at the
failing command, whose oracle slot carries the error — the engine
publishes the error text to the error channel, sleeps error_delay
seconds, and any subsequent attempt runs the full fresh schedule from
the first inner iteration (result-publish failures, by contrast, are
swallowed after bounded retries and never abandon the pass). -/
theorem update_command_failure_policy (env : Env) (s : Settings) (m : String)
    (h : (update env s).1 = Res.err m) :
    (∃ t c, (update env s).2.trace = t ++ [Event.exec c]) ∧
    env.exec ((update env s).2.execCount - 1) = Except.error m ∧
    (mainStep env s).1 = StepOut.next ∧
    (mainStep env s).2.trace =
      (update env s).2.trace ++
        [Event.publish Chan.error m (publishWithRetry env.pub (update env s).2.pubCount).2,
         Event.sleepSec s.error_delay] ∧
    (∀ env2, allOk env2 → s.inverter_count ≤ 9 →
      execCmds (update env2 s).2.trace =
        (List.replicate s.inner_iterations (innerCmds s)).flatten ++ outerCmds s) := by
  obtain ⟨hshape, hslot⟩ := update_err env s m h
  refine ⟨hshape, hslot, ?_, ?_, ?_⟩
  · rw [mainStep, eq_pair_of_fst h]
  · rw [mainStep, eq_pair_of_fst h]
    simp [doSleep, doPublish]
  · intro env2 hok2 hc2
    exact (update_ok env2 s hok2 hc2).2.1

/-- Claim C1 witness: a default-mode pass whose third executor call
(the qmod query) fails, evaluated concretely. -/
theorem update_command_failure_policy_witness :
    (update (envFailAt 2) sDefault).1 = Res.err "boom" ∧
    (∃ t c, (update (envFailAt 2) sDefault).2.trace = t ++ [Event.exec c]) ∧
    (mainStep (envFailAt 2) sDefault).1 = StepOut.next := by
  have h : (update (envFailAt 2) sDefault).1 = Res.err "boom" := by decide
  have hr := update_command_failure_policy (envFailAt 2) sDefault "boom" h
  exact ⟨h, hr.1, hr.2.2.1⟩

/-- Claim C3: in alternate mode each inner pass executes the per-unit
status query for exactly the indices of the polled range — from 0 with
debug enabled, from 1 otherwise, up to inverter_count — and the index-0
result is published, under the qpgs0 suffix, exactly when debug is
enabled. -/
theorem innerPass_phocos_indices (env : Env) (s : Settings) (st : St)
    (hm : s.mode = "phocos") (hok : allOk env) (hc : s.inverter_count ≤ 9) :
    (innerPass env s st).1 = Res.ok () ∧
    execCmds (innerPass env s st).2.trace =
      execCmds st.trace ++ (idxList s).map Cmd.qpgs ∧
    (∀ i, i ∈ idxList s ↔ (if s.debug then 0 else 1) ≤ i ∧ i ≤ s.inverter_count) ∧
    pubChans (innerPass env s st).2.trace =
      pubChans st.trace ++
        ((idxList s).filter (qpgsPubCond s)).map Chan.qpgs ++ [Chan.inner_stats] ∧
    (Chan.qpgs 0 ∈ ((idxList s).filter (qpgsPubCond s)).map Chan.qpgs ↔ s.debug = true) ∧
    chanName (Chan.qpgs 0) = "qpgs0" := by
  have hm2 : (s.mode == "phocos") = true := by simp [hm]
  obtain ⟨h1, h2, h3, _, _⟩ := innerPass_ok env s hok hc st
  refine ⟨h1, ?_, ?_, ?_, ?_, by decide⟩
  · rw [h2]
    unfold innerCmds statusCmds
    simp [hm2]
  · intro i
    rw [mem_idxList]
    unfold startIndex
    exact Iff.rfl
  · rw [h3]
    unfold innerChans statusChans
    simp [hm2]
  · constructor
    · intro hmem
      simp only [List.mem_map, List.mem_filter] at hmem
      obtain ⟨i, ⟨hiIdx, hiCond⟩, hieq⟩ := hmem
      have hi0 : i = 0 := by
        injection hieq
      subst hi0
      have hle := (mem_idxList.mp hiIdx).1
      by_contra hd
      simp only [Bool.not_eq_true] at hd
      simp [startIndex, hd] at hle
    · intro hd
      simp only [List.mem_map, List.mem_filter]
      exact ⟨0, ⟨mem_idxList.mpr ⟨by simp [startIndex, hd], by omega⟩,
        by simp [qpgsPubCond, hd]⟩, rfl⟩

/-- Claim C3 witness: alternate mode with debug enabled and disabled at
two units, exercising the theorem concretely. -/
theorem innerPass_phocos_indices_witness :
    (innerPass envAll sPhocosDbg st0).1 = Res.ok () ∧
    (Chan.qpgs 0 ∈ ((idxList sPhocosDbg).filter (qpgsPubCond sPhocosDbg)).map Chan.qpgs) ∧
    ¬ (Chan.qpgs 0 ∈ ((idxList sPhocos).filter (qpgsPubCond sPhocos)).map Chan.qpgs) := by
  have hok : allOk envAll := fun k => ⟨7, rfl⟩
  have hd := innerPass_phocos_indices envAll sPhocosDbg st0 rfl hok (by decide)
  have hn := innerPass_phocos_indices envAll sPhocos st0 rfl hok (by decide)
  refine ⟨hd.1, hd.2.2.2.2.1.mpr rfl, ?_⟩
  intro hmem
  have := hn.2.2.2.2.1.mp hmem
  simp [sPhocos] at this

/-- Claim C4: in default mode each inner pass issues exactly the single
aggregate qpigs query and no per-unit indexed query appears anywhere in
the pass; in alternate mode no qpigs command or channel appears; the
rating query uses the full qpiri schema in default mode and the reduced
schema in alternate mode, and both modes publish it under the qpiri
suffix. -/
theorem update_mode_selection (env : Env) (s : Settings)
    (hok : allOk env) (hc : s.inverter_count ≤ 9) :
    (s.mode ≠ "phocos" →
      innerCmds s = [Cmd.qpigs] ∧
      (∀ i, Cmd.qpgs i ∉ execCmds (update env s).2.trace) ∧
      (∀ i, Chan.qpgs i ∉ pubChans (update env s).2.trace) ∧
      Cmd.qpiri ∈ execCmds (update env s).2.trace ∧
      Cmd.qpiriReduced ∉ execCmds (update env s).2.trace) ∧
    (s.mode = "phocos" →
      Cmd.qpigs ∉ execCmds (update env s).2.trace ∧
      Chan.qpigs ∉ pubChans (update env s).2.trace ∧
      Cmd.qpiriReduced ∈ execCmds (update env s).2.trace ∧
      Cmd.qpiri ∉ execCmds (update env s).2.trace) ∧
    Chan.qpiri ∈ pubChans (update env s).2.trace := by
  obtain ⟨h1, h2, h3, _, _⟩ := update_ok env s hok hc
  refine ⟨?_, ?_, ?_⟩
  · intro hm
    have hm2 : (s.mode == "phocos") = false := by simp [hm]
    have hinner : innerCmds s = [Cmd.qpigs] := by
      unfold innerCmds statusCmds
      simp [hm2]
    refine ⟨hinner, ?_, ?_, ?_, ?_⟩
    · intro i hmem
      rw [h2, hinner] at hmem
      rcases List.mem_append.mp hmem with hx | hx
      · simp [List.mem_flatten, List.mem_replicate] at hx
      · unfold outerCmds at hx
        simp [hm2] at hx
    · intro i hmem
      rw [h3] at hmem
      rcases List.mem_append.mp hmem with hx | hx
      · simp only [List.mem_flatten, List.mem_replicate] at hx
        obtain ⟨l, ⟨_, rfl⟩, hxl⟩ := hx
        unfold innerChans statusChans at hxl
        simp [hm2] at hxl
      · simp [outerChans] at hx
    · rw [h2]
      refine List.mem_append.mpr (Or.inr ?_)
      unfold outerCmds
      simp [hm2]
    · intro hmem
      rw [h2, hinner] at hmem
      rcases List.mem_append.mp hmem with hx | hx
      · simp [List.mem_flatten, List.mem_replicate] at hx
      · unfold outerCmds at hx
        simp [hm2] at hx
  · intro hm
    have hm2 : (s.mode == "phocos") = true := by simp [hm]
    refine ⟨?_, ?_, ?_, ?_⟩
    · intro hmem
      rw [h2] at hmem
      rcases List.mem_append.mp hmem with hx | hx
      · simp only [List.mem_flatten, List.mem_replicate] at hx
        obtain ⟨l, ⟨_, rfl⟩, hxl⟩ := hx
        unfold innerCmds statusCmds at hxl
        simp [hm2] at hxl
      · unfold outerCmds at hx
        simp [hm2] at hx
    · intro hmem
      rw [h3] at hmem
      rcases List.mem_append.mp hmem with hx | hx
      · simp only [List.mem_flatten, List.mem_replicate] at hx
        obtain ⟨l, ⟨_, rfl⟩, hxl⟩ := hx
        unfold innerChans statusChans at hxl
        simp [hm2] at hxl
      · simp [outerChans] at hx
    · rw [h2]
      refine List.mem_append.mpr (Or.inr ?_)
      unfold outerCmds
      simp [hm2]
    · intro hmem
      rw [h2] at hmem
      rcases List.mem_append.mp hmem with hx | hx
      · simp only [List.mem_flatten, List.mem_replicate] at hx
        obtain ⟨l, ⟨_, rfl⟩, hxl⟩ := hx
        unfold innerCmds statusCmds at hxl
        simp [hm2] at hxl
      · unfold outerCmds at hx
        simp [hm2] at hx
  · rw [h3]
    refine List.mem_append.mpr (Or.inr ?_)
    simp [outerChans]

/-- Claim C4 witness: mode selection evaluated at concrete default and
alternate settings. -/
theorem update_mode_selection_witness :
    Cmd.qpiri ∈ execCmds (update envAll sDefault).2.trace ∧
    Cmd.qpiriReduced ∈ execCmds (update envAll sPhocos).2.trace ∧
    Chan.qpiri ∈ pubChans (update envAll sPhocos).2.trace := by
  have hok : allOk envAll := fun k => ⟨7, rfl⟩
  have hdef := update_mode_selection envAll sDefault hok (by decide)
  have hpho := update_mode_selection envAll sPhocos hok (by decide)
  exact ⟨(hdef.1 (by decide)).2.2.2.1, (hpho.2.1 rfl).2.2.1, hpho.2.2⟩

/-- Claim C5: every telemetry publish — publish_update, publish_error
and clear_error — returns success to its caller unconditionally; the
underlying delivery loop makes at most five broker attempts, stops at
the first success (every earlier attempt having failed), makes exactly
five attempts when none succeeds, and inserts no sleep between
attempts; so a failed publish can never abort or error the polling
cycle. -/
theorem publish_bounded_retry (env : Env) (ch : Chan) (p m : String) (st : St)
    (a : Nat → Bool) (start : Nat) :
    (publish_update env ch p st).1 = Except.ok () ∧
    (publish_error env m st).1 = Except.ok () ∧
    (clear_error env st).1 = Except.ok () ∧
    (publishWithRetry a start).1 ≤ 5 ∧
    ((publishWithRetry a start).2 = true →
      a (start + ((publishWithRetry a start).1 - 1)) = true ∧
      ∀ j, j + 1 < (publishWithRetry a start).1 → a (start + j) = false) ∧
    ((publishWithRetry a start).2 = false →
      (publishWithRetry a start).1 = 5 ∧ ∀ j, j < 5 → a (start + j) = false) ∧
    (doPublish env ch p st).trace =
      st.trace ++ [Event.publish ch p (publishWithRetry env.pub st.pubCount).2] ∧
    sleepsOf (doPublish env ch p st).trace = sleepsOf st.trace ∧
    (doPublish env ch p st).pubCount =
      st.pubCount + (publishWithRetry env.pub st.pubCount).1 := by
  obtain ⟨g1, _, g2, g3⟩ := attemptLoop_spec a 5 start
  refine ⟨rfl, rfl, rfl, g1, g2, g3, rfl, ?_, rfl⟩
  simp

/-- Claim C5 witness: a broker that accepts only the third attempt,
exercising the bound, the stop-at-first-success shape and the
unconditional success result concretely. -/
theorem publish_bounded_retry_witness :
    (publish_update envNoPub Chan.qpigs "x" st0).1 = Except.ok () ∧
    (publishWithRetry (fun k => k == 2) 0).1 ≤ 5 ∧
    (publishWithRetry (fun k => k == 2) 0).1 = 3 := by
  have h := publish_bounded_retry envNoPub Chan.qpigs "x" "m" st0 (fun k => k == 2) 0
  exact ⟨h.1, h.2.2.2.1, by decide⟩

/-- Claim C6, corrected: counterexample to the claim as stated.  When
the protocol-id query fails during initialization, the caller publishes
the error and then hits the todo marker, which panics: the model result
is StepOut.died, i.e. the process crashes — contradicting the claim
that the engine neither crashes the process nor proceeds (it is right
that it never proceeds into the main polling loop). -/
theorem init_qpi_failure_crashes :
    (initAndHandle envQpiFail).1 = StepOut.died ∧
    (initAndHandle envQpiFail).2.trace =
      [Event.exec Cmd.qid,
       Event.publish Chan.qid (serVal 7) true,
       Event.exec Cmd.qpi,
       Event.publish Chan.error "qpi fail" true] := by
  decide

/-- Claim C6, amended: a QID failure during initialization is
non-fatal — the sequence continues through QPI and QVFW and publishes
their results; a QPI or QVFW failure aborts initialization and
propagates the error to the caller, which publishes it to the error
channel and then panics on the unimplemented-retry todo marker,
terminating the process; the engine never proceeds into the main
polling loop after such a failure. -/
theorem init_failure_policy (env : Env) :
    (∀ m v1 v2, env.exec 0 = Except.error m → env.exec 1 = Except.ok v1 →
      env.exec 2 = Except.ok v2 →
      (init env st0).1 = Res.ok () ∧
      execCmds (init env st0).2.trace = [Cmd.qid, Cmd.qpi, Cmd.qvfw] ∧
      pubChans (init env st0).2.trace = [Chan.qpi, Chan.qvfw] ∧
      (initAndHandle env).1 = StepOut.next) ∧
    (∀ m, env.exec 1 = Except.error m →
      (init env st0).1 = Res.err m ∧
      (initAndHandle env).1 = StepOut.died ∧
      ∃ d, (initAndHandle env).2.trace =
        (init env st0).2.trace ++ [Event.publish Chan.error m d]) ∧
    (∀ v1 m, env.exec 1 = Except.ok v1 → env.exec 2 = Except.error m →
      (init env st0).1 = Res.err m ∧
      (initAndHandle env).1 = StepOut.died ∧
      ∃ d, (initAndHandle env).2.trace =
        (init env st0).2.trace ++ [Event.publish Chan.error m d]) := by
  refine ⟨?_, ?_, ?_⟩
  · intro m v1 v2 h0 h1 h2
    have hinit : (init env st0).1 = Res.ok () ∧
        execCmds (init env st0).2.trace = [Cmd.qid, Cmd.qpi, Cmd.qvfw] ∧
        pubChans (init env st0).2.trace = [Chan.qpi, Chan.qvfw] := by
      rw [init]
      simp only [doExec_fst]
      simp only [st0]
      simp [doExec, h0, h1, h2, doPublish]
    refine ⟨hinit.1, hinit.2.1, hinit.2.2, ?_⟩
    rw [initAndHandle, eq_pair_of_fst hinit.1]
  · intro m h1
    have hinit : (init env st0).1 = Res.err m := by
      rw [init]
      cases h0 : env.exec 0 with
      | error m0 => simp [st0, doExec, h0, h1, doPublish]
      | ok v0 => simp [st0, doExec, h0, h1, doPublish]
    refine ⟨hinit, ?_, ?_⟩
    · rw [initAndHandle, eq_pair_of_fst hinit]
    · rw [initAndHandle, eq_pair_of_fst hinit]
      refine ⟨(publishWithRetry env.pub (init env st0).2.pubCount).2, ?_⟩
      simp [doPublish]
  · intro v1 m h1 h2
    have hinit : (init env st0).1 = Res.err m := by
      rw [init]
      cases h0 : env.exec 0 with
      | error m0 => simp [st0, doExec, h0, h1, h2, doPublish]
      | ok v0 => simp [st0, doExec, h0, h1, h2, doPublish]
    refine ⟨hinit, ?_, ?_⟩
    · rw [initAndHandle, eq_pair_of_fst hinit]
    · rw [initAndHandle, eq_pair_of_fst hinit]
      refine ⟨(publishWithRetry env.pub (init env st0).2.pubCount).2, ?_⟩
      simp [doPublish]

/-- Claim C6 witness: identity failure tolerated at a concrete
environment whose slot-0 call fails; protocol-id failure dies at a
concrete environment whose slot-1 call fails. -/
theorem init_failure_policy_witness :
    (init envQidFail st0).1 = Res.ok () ∧
    (initAndHandle envQidFail).1 = StepOut.next ∧
    (initAndHandle envQpiFail).1 = StepOut.died := by
  have hqid := (init_failure_policy envQidFail).1 "qid fail" 7 7 rfl rfl rfl
  have hqpi := ((init_failure_policy envQpiFail).2.1 "qpi fail" rfl).2.1
  exact ⟨hqid.1, hqid.2.2.2, hqpi⟩

/-- Claim C8: every pass that completes without error ends with exactly
one empty-payload publish to the error channel — the clear_error call —
and no other event of the pass publishes an empty payload there, so the
count of error-channel clears per completed pass is exactly one. -/
theorem mainStep_clears_error_once (env : Env) (s : Settings)
    (hok : allOk env) (hc : s.inverter_count ≤ 9) :
    (mainStep env s).1 = StepOut.next ∧
    countClear (mainStep env s).2.trace = 1 ∧
    (mainStep env s).2.trace =
      (update env s).2.trace ++
        [Event.publish Chan.error ""
          (publishWithRetry env.pub (update env s).2.pubCount).2] ∧
    countClear (update env s).2.trace = 0 := by
  obtain ⟨h1, _, _, _, h5⟩ := update_ok env s hok hc
  have hstep : (mainStep env s).2 = doPublish env Chan.error "" (update env s).2 := by
    rw [mainStep, eq_pair_of_fst h1]
    rfl
  refine ⟨?_, ?_, ?_, h5⟩
  · rw [mainStep, eq_pair_of_fst h1]
  · rw [hstep]
    simp [doPublish, h5]
  · rw [hstep]
    simp [doPublish]

/-- Claim C8 witness: one completed default-mode pass at the
all-success environment clears the error channel exactly once. -/
theorem mainStep_clears_error_once_witness :
    (mainStep envAll sDefault).1 = StepOut.next ∧
    countClear (mainStep envAll sDefault).2.trace = 1 := by
  have hok : allOk envAll := fun k => ⟨7, rfl⟩
  have h := mainStep_clears_error_once envAll sDefault hok (by decide)
  exact ⟨h.1, h.2.1⟩

end Mpqtt
